import Mathlib


set_option maxRecDepth 20000

/-!
Verification of the slab and pool allocators of the Allocates repository.

The C sources are shallowly embedded: machine words are naturals taken
modulo 2^64 wherever the hardware would wrap, raw memory is a byte map
from addresses to byte values for the slab (whose free list is intrusive),
and a header map from addresses to 24-byte block headers for the pool.
Pointer dereference of an address that was never written is modelled as a
failure (Option none), matching the fact that the C program has no defined
behaviour there.
-/
/-- The size of the 64-bit machine word space, 2^64. -/
def W64 : Nat := 2 ^ 64

/-- 64-bit wrapping addition, as performed by addq. -/
def add64 (a b : Nat) : Nat := (a + b) % W64

/-- 64-bit wrapping subtraction, as performed by subq and dec. -/
def sub64 (a b : Nat) : Nat := (a % W64 + (W64 - b % W64)) % W64

/-- 64-bit bitwise complement, as performed by notq. -/
def not64 (a : Nat) : Nat := (W64 - 1) - a % W64

/-- align_size from slab_alloc.c: round a size up to the next multiple of
16 with the expression (size + 15) and-not 15. -/
def align_size (s : Nat) : Nat := (add64 s 15) &&& (not64 15)

/-! ## Byte-addressed memory for the slab allocator

The slab free list is intrusive: next-links live in the first machine word
of each cell, and slab_reset's bulk memset overwrites them.  Memory is a
total byte map; VirtualAlloc hands out zero-initialized pages, so fresh
memory is the all-zero map. -/
/-- Byte-addressed memory: a total map from addresses to byte values. -/
def Mem : Type := Nat → Nat

/-- Store one byte. -/
def updByte (m : Mem) (a v : Nat) : Mem := fun y => if y = a then v else m y

/-- Store the k low-order bytes of v little-endian at address a. -/
def writeBytes : Mem → Nat → Nat → Nat → Mem
  | m, _, _, 0 => m
  | m, a, v, k+1 => writeBytes (updByte m a (v % 256)) (a + 1) (v / 256) k

/-- Read k bytes little-endian starting at address a. -/
def readBytes : Mem → Nat → Nat → Nat
  | _, _, 0 => 0
  | m, a, k+1 => m a + 256 * readBytes m (a + 1) k

/-- Store a 64-bit machine word (movq). -/
def writeWord (m : Mem) (a v : Nat) : Mem := writeBytes m a v 8

/-- Load a 64-bit machine word (movq). -/
def readWord (m : Mem) (a : Nat) : Nat := readBytes m a 8

/-- simd_memset: the observable effect of the AVX byte-fill loop is that
every byte of the range [a, a+len) holds the low byte of v and no other
byte changes. -/
def memFill (m : Mem) (a len v : Nat) : Mem :=
  fun y => if a ≤ y ∧ y < a + len then v % 256 else m y

/-- Zero-initialized memory, as returned by VirtualAlloc. -/
def zeroMem : Mem := fun _ => 0

/-- The free-list building loop shared by slab_init and slab_reset: cell 0
at address a receives the address of cell 1, and so on; the last of the
k+1 cells receives the null link. -/
def writeChain : Mem → Nat → Nat → Nat → Mem
  | m, a, _, 0 => writeWord m a 0
  | m, a, cs, k+1 => writeChain (writeWord m a (a + cs)) (a + cs) cs k

/-- The Slab structure of slab_alloc.h: base address, cell size, cell
count, free-list head (0 when empty), plus the byte memory of the region
and the byte count requested from the OS. -/
structure SlabState where
  memory : Nat
  object_size : Nat
  total_objects : Nat
  free_list : Nat
  region_bytes : Nat
  mem : Mem

/-- slab_init.  The OS address handed back by VirtualAlloc is a parameter
(0 models allocation failure).  Guards, 16-byte rounding of the object
size, region request of cell_size * total_objects bytes, and the
ascending free-list build follow the C source. -/
def slabInit (osbase : Nat) (total_objects object_size : Nat) : Option SlabState :=
  if total_objects = 0 ∨ object_size < 8 then none
  else
    if osbase = 0 then none
    else some { memory := osbase,
                object_size := align_size object_size,
                total_objects := total_objects,
                free_list := osbase,
                region_bytes := align_size object_size * total_objects,
                mem := writeChain zeroMem osbase (align_size object_size) (total_objects - 1) }

/-- slab_alloc: pop the free-list head, follow the intrusive link stored
in its first word, and hand back head + HEADER_SIZE. -/
def slabAlloc (s : SlabState) : Option Nat × SlabState :=
  if s.free_list = 0 then (none, s)
  else (some (add64 s.free_list 32), { s with free_list := readWord s.mem s.free_list })

/-- slab_free: guard against the null object pointer, then push the cell
ptr - HEADER_SIZE onto the free list, storing the old head in its first
word. -/
def slabFree (s : SlabState) (ptr : Nat) : SlabState :=
  if ptr = 0 then s
  else { s with mem := writeWord s.mem (sub64 ptr 32) s.free_list,
                free_list := sub64 ptr 32 }

/-- slab_reset: rebuild the free list in ascending cell order exactly as
in slab_init, then bulk-zero the whole region. -/
def slabReset (s : SlabState) : SlabState :=
  { s with free_list := s.memory,
           mem := memFill (writeChain s.mem s.memory s.object_size (s.total_objects - 1))
                    s.memory (s.object_size * s.total_objects) 0 }

/-- Perform n slab_alloc calls in sequence, collecting the results. -/
def runAllocs : SlabState → Nat → List (Option Nat) × SlabState
  | s, 0 => ([], s)
  | s, n+1 =>
    let r := slabAlloc s
    let rest := runAllocs r.2 n
    (r.1 :: rest.1, rest.2)

/-! ## Pool allocator

Pool memory is modelled at the granularity the code accesses it: a map
from addresses to BlockHeader records (the 24 bytes the code reads and
writes through BlockHeader*).  Reading a header at an address that never
held one is a wild dereference and yields none.  The map is an
association list where the most recent store shadows older ones.  The OS
address returned by VirtualAlloc during growth is a parameter of
pool_alloc (none models refusal). -/
/-- BlockHeader from pool_alloc.h: requested size, alignment padding,
next free-block link. -/
structure BlockHeader where
  size : Nat
  padding : Nat
  next_free : Nat
  deriving DecidableEq, Repr

/-- PoolBlock from pool_alloc.h, minus the intrusive next pointer (the
chain is kept as a list in chain order): usable base, usable size, bump
offset. -/
structure PoolBlock where
  base : Nat
  size : Nat
  offset : Nat
  deriving DecidableEq, Repr

/-- Header memory: most recent store first. -/
abbrev HMem : Type := List (Nat × BlockHeader)

/-- Read the header at address a. -/
def lookupH : HMem → Nat → Option BlockHeader
  | [], _ => none
  | (b, h) :: t, a => if a = b then some h else lookupH t a

/-- Store a header at address a. -/
def updH (hm : HMem) (a : Nat) (h : BlockHeader) : HMem := (a, h) :: hm

/-- Pool from pool_alloc.h: region chain in chain order, free-list head
(0 when empty), initial block size, and the header memory. -/
structure Pool where
  blocks : List PoolBlock
  free_list : Nat
  initial_block_size : Nat
  hdrs : HMem
  deriving DecidableEq

/-- pool_init: one region whose usable base is the VirtualAlloc address
plus sizeof(PoolBlock) = 32, rounded up to 16 bytes; empty free list. -/
def poolInit (osaddr : Option Nat) (pool_size : Nat) : Option Pool :=
  if pool_size = 0 then none
  else
    match osaddr with
    | none => none
    | some a =>
      if a = 0 then none
      else some { blocks := [{ base := (add64 (a + 32) 15) &&& (not64 15),
                               size := pool_size, offset := 0 }],
                  free_list := 0,
                  initial_block_size := pool_size,
                  hdrs := [] }

/-- remove_free_block's walk.  Arguments after the fuel: header memory,
pool free-list head, previous node (0 for none), current node.  Returns
(user pointer or 0, new free-list head, new header memory); none models a
wild dereference or the modulo-by-zero of a zero alignment, both
undefined in the C. -/
def rfbGo (asz align : Nat) : Nat → HMem → Nat → Nat → Nat → Option (Nat × Nat × HMem)
  | 0, _, _, _, _ => none
  | fuel+1, h, fl, prev, cur =>
    if cur = 0 then some (0, fl, h)
    else if align = 0 then none
    else
      match lookupH h cur with
      | none => none
      | some bh =>
        if add64 cur 32 % align = 0 ∧ asz ≤ bh.size then
          match (if prev = 0 then some (bh.next_free, h)
                 else match lookupH h prev with
                      | some pbh => some (fl, updH h prev { pbh with next_free := bh.next_free })
                      | none => none) with
          | none => none
          | some (fl1, h1) =>
            if asz + 32 + 16 ≤ bh.size then
              some (add64 cur 32
                   , add64 (add64 cur 32) asz
                   , updH (updH h1 cur { bh with size := asz })
                       (add64 (add64 cur 32) asz)
                       { size := bh.size - asz - 32, padding := 0, next_free := fl1 })
            else some (add64 cur 32, fl1, h1)
        else rfbGo asz align fuel h fl cur bh.next_free

/-- alloc_from_block: the inline-assembly bump path, with every addq,
subq, dec, not, and andq performed modulo 2^64.  On success returns the
aligned user pointer, the committed new offset, and the header store
performed at aligned - 32. -/
def allocFromBlock (b : PoolBlock) (asz align : Nat) :
    Option (Nat × Nat × Nat × BlockHeader) :=
  let raw := add64 b.base b.offset
  let cand := add64 raw 32
  let am := sub64 align 1
  let aligned := (add64 cand am) &&& (not64 am)
  let pad := sub64 aligned cand
  let req := add64 (add64 32 pad) asz
  let newOff := add64 b.offset req
  if b.size < newOff then none
  else some (aligned, newOff, sub64 aligned 32, { size := asz, padding := pad, next_free := 0 })

/-- The bump loop of pool_alloc over the region chain.  A block that
commits but produces user pointer 0 is treated as a failure by the
caller, which moves on to the next region with the commit left in place,
exactly as the C loop does.  Returns the first nonzero user pointer (or
none), the updated chain, and the header stores performed, oldest
first. -/
def bumpBlocks (asz align : Nat) : List PoolBlock → Option Nat × List PoolBlock × List (Nat × BlockHeader)
  | [] => (none, [], [])
  | b :: rest =>
    match allocFromBlock b asz align with
    | some (ptr, newOff, ha, hv) =>
      if ptr = 0 then
        let r := bumpBlocks asz align rest
        (r.1, { b with offset := newOff } :: r.2.1, (ha, hv) :: r.2.2)
      else (some ptr, { b with offset := newOff } :: rest, [(ha, hv)])
    | none =>
      let r := bumpBlocks asz align rest
      (r.1, b :: r.2.1, r.2.2)

/-- Apply a list of header stores, oldest first. -/
def applyWrites (h : HMem) : List (Nat × BlockHeader) → HMem
  | [] => h
  | w :: ws => applyWrites (updH h w.1 w.2) ws

/-- The region appended by dynamic expansion: usable base is the
VirtualAlloc address plus 32 rounded up to 16 bytes. -/
def newRegion (osaddr nbs : Nat) : PoolBlock :=
  { base := (add64 (osaddr + 32) 15) &&& (not64 15), size := nbs, offset := 0 }

/-- pool_alloc: precondition guard, free-list first-fit, bump over the
chain, then dynamic expansion.  os is the VirtualAlloc response for the
expansion (none or 0 models refusal).  The outer none models a crash of
the walk (wild dereference / modulo by zero). -/
def poolAlloc (p : Pool) (asz align : Nat) (os : Option Nat) : Option (Nat × Pool) :=
  if asz = 0 ∨ align &&& (align - 1) ≠ 0 then some (0, p)
  else
    match rfbGo asz align (p.hdrs.length + 1) p.hdrs p.free_list 0 p.free_list with
    | none => none
    | some (r, fl2, h2) =>
      if r ≠ 0 then some (r, { p with free_list := fl2, hdrs := h2 })
      else
        match bumpBlocks asz align p.blocks with
        | (some ptr, blocks2, ws) =>
          some (ptr, { p with free_list := fl2, hdrs := applyWrites h2 ws, blocks := blocks2 })
        | (none, blocks2, ws) =>
          match os with
          | none => some (0, { p with free_list := fl2, hdrs := applyWrites h2 ws, blocks := blocks2 })
          | some a =>
            if a = 0 then some (0, { p with free_list := fl2, hdrs := applyWrites h2 ws, blocks := blocks2 })
            else
              let nbs := max p.initial_block_size (add64 asz 32)
              let nb := newRegion a nbs
              match allocFromBlock nb asz align with
              | some (ptr, newOff, ha, hv) =>
                some (ptr, { p with free_list := fl2,
                                    hdrs := applyWrites h2 (ws ++ [(ha, hv)]),
                                    blocks := blocks2 ++ [{ nb with offset := newOff }] })
              | none =>
                some (0, { p with free_list := fl2,
                                  hdrs := applyWrites h2 ws,
                                  blocks := blocks2 ++ [nb] })

/-- Null-handle wrapper for pool_alloc: a null pool returns 0 with no
effect. -/
def poolAllocH : Option Pool → Nat → Nat → Option Nat → Option (Nat × Option Pool)
  | none, _, _, _ => some (0, none)
  | some p, asz, align, os => (poolAlloc p asz align os).map (fun x => (x.1, some x.2))

/-- The counting-and-collecting walk at the top of coalesce_free_list. -/
def collectFL (h : HMem) : Nat → Nat → Option (List Nat)
  | 0, _ => none
  | fuel+1, cur =>
    if cur = 0 then some []
    else match lookupH h cur with
    | none => none
    | some bh =>
      match collectFL h fuel bh.next_free with
      | none => none
      | some l => some (cur :: l)

/-- Ascending insertion, modelling the qsort comparator. -/
def insertAsc (x : Nat) : List Nat → List Nat
  | [] => [x]
  | y :: ys => if x ≤ y then x :: y :: ys else y :: insertAsc x ys

/-- Ascending sort of the materialized free-block addresses. -/
def sortAsc : List Nat → List Nat
  | [] => []
  | x :: xs => insertAsc x (sortAsc xs)

/-- One step chain of the merge loop of coalesce_free_list, with the
array entry at the current index held in a: for the pair (a, b), if
a + 32 + a.size equals b, extend a over b and null out b's array slot;
the next iteration then reads the header of that nulled slot, which for
a preceding merge is the wild dereference of address 0 (none). -/
def mergeGo : HMem → Nat → List Nat → Option (HMem × List Nat)
  | h, a, [] => some (h, [a])
  | h, a, b :: rest =>
    match lookupH h a with
    | none => none
    | some bha =>
      if add64 (add64 a 32) bha.size = b then
        match lookupH h b with
        | none => none
        | some bhb =>
          match mergeGo (updH h a { bha with size := add64 (add64 bha.size 32) bhb.size }) 0 rest with
          | none => none
          | some (h3, t) => some (h3, a :: t)
      else
        match mergeGo h b rest with
        | none => none
        | some (h3, t) => some (h3, a :: t)

/-- The merge pass of coalesce_free_list over the sorted array. -/
def mergePass : HMem → List Nat → Option (HMem × List Nat)
  | h, [] => some (h, [])
  | h, a :: rest => mergeGo h a rest

/-- Rebuild the free-list chain from the surviving entries in sorted
order; the last survivor gets the null link. -/
def rebuildFL : HMem → List Nat → Option HMem
  | h, [] => some h
  | h, [a] =>
    match lookupH h a with
    | none => none
    | some bh => some (updH h a { bh with next_free := 0 })
  | h, a :: b :: rest =>
    match lookupH h a with
    | none => none
    | some bh => rebuildFL (updH h a { bh with next_free := b }) (b :: rest)

/-- coalesce_free_list: count and collect, sort ascending, merge
adjacent pairs, rebuild the chain from the survivors. -/
def coalesce (p : Pool) : Option Pool :=
  match collectFL p.hdrs (p.hdrs.length + 1) p.free_list with
  | none => none
  | some l =>
    if l.length = 0 then some p
    else
      match mergePass p.hdrs (sortAsc l) with
      | none => none
      | some (h2, arr2) =>
        match rebuildFL h2 (arr2.filter (fun x => x ≠ 0)) with
        | none => none
        | some h3 =>
          some { p with hdrs := h3, free_list := (arr2.filter (fun x => x ≠ 0)).headD 0 }

/-- pool_free: guard against pointer 0, push the header at ptr - 32 onto
the free list, then coalesce. -/
def poolFree (p : Pool) (ptr : Nat) : Option Pool :=
  if ptr = 0 then some p
  else
    match lookupH p.hdrs (sub64 ptr 32) with
    | none => none
    | some bh =>
      coalesce { p with hdrs := updH p.hdrs (sub64 ptr 32) { bh with next_free := p.free_list },
                        free_list := sub64 ptr 32 }

/-! ## Fresh-slab run lemmas -/
/-- The state produced by a successful slab_init. -/
def freshSlab (b cs N : Nat) : SlabState :=
  { memory := b, object_size := cs, total_objects := N, free_list := b,
    region_bytes := cs * N, mem := writeChain zeroMem b cs (N - 1) }

/-- The fresh-slab state after k pops with no intervening free: the head
is cell k while cells remain, afterwards the null sentinel. -/
def slabAfter (b cs N k : Nat) : SlabState :=
  { freshSlab b cs N with free_list := if k < N then b + k * cs else 0 }

/-- A fresh pool with one empty 4096-byte region based at 65568 and an
empty free list, as produced by pool_init on a page at 65536. -/
def poolA : Pool :=
  { blocks := [{ base := 65568, size := 4096, offset := 0 }],
    free_list := 0, initial_block_size := 4096, hdrs := [] }

lemma W64_pos : 0 < W64 := by decide

lemma add64_eq_of_lt {a b : Nat} (h : a + b < W64) : add64 a b = a + b := by
  simpa [add64] using Nat.mod_eq_of_lt h

lemma sub64_add_cancel {x c : Nat} (hc : 0 < c) (hcW : c < W64) (h : x + c < W64) :
    sub64 (x + c) c = x := by
  have hx : (x + c) % W64 = x + c := Nat.mod_eq_of_lt h
  have hcm : c % W64 = c := Nat.mod_eq_of_lt hcW
  have hxw : x < W64 := by omega
  calc sub64 (x + c) c = (x + c + (W64 - c)) % W64 := by rw [sub64, hx, hcm]
  _ = (x + W64) % W64 := by congr 1; omega
  _ = x % W64 := Nat.add_mod_right x W64
  _ = x := Nat.mod_eq_of_lt hxw

/-- Bitwise and commutes with reduction modulo a power of two. -/
lemma land_mod_two_pow (a b n : Nat) :
    (a &&& b) % 2 ^ n = (a % 2 ^ n) &&& (b % 2 ^ n) := by
  apply Nat.eq_of_testBit_eq
  intro i
  by_cases h : i < n <;>
    simp [Nat.testBit_mod_two_pow, Nat.testBit_land, h]

/-- Anding with a mask that is a multiple of 2^n yields a multiple of 2^n. -/
lemma dvd_land_of_dvd (a m n : Nat) (h : 2 ^ n ∣ m) : 2 ^ n ∣ (a &&& m) := by
  apply Nat.dvd_of_mod_eq_zero
  obtain ⟨c, rfl⟩ := h
  have h0 : 2 ^ n * c % 2 ^ n = 0 := Nat.mul_mod_right _ _
  rw [land_mod_two_pow, h0]
  simp

/-- For y below 2^64, anding with the mask 2^64 - 2^n clears the n low bits. -/
lemma land_mask_eq (y n : Nat) (hy : y < W64) (hn : n ≤ 64) :
    y &&& (W64 - 2 ^ n) = y - y % 2 ^ n := by
  have hmask : W64 - 2 ^ n = (2 ^ (64 - n) - 1) <<< n := by
    rw [Nat.shiftLeft_eq, Nat.sub_mul, one_mul, ← Nat.pow_add]
    have h64 : 64 - n + n = 64 := by omega
    rw [h64]
    rfl
  have h1 : 2 ^ n * (y / 2 ^ n) + y % 2 ^ n = y := Nat.div_add_mod y (2 ^ n)
  rw [Nat.mul_comm] at h1
  have hrhs : y - y % 2 ^ n = (y >>> n) <<< n := by
    rw [Nat.shiftRight_eq_div_pow, Nat.shiftLeft_eq]
    omega
  rw [hmask, hrhs]
  apply Nat.eq_of_testBit_eq
  intro i
  rw [Nat.testBit_land, Nat.testBit_shiftLeft, Nat.testBit_shiftLeft]
  by_cases hni : n ≤ i
  · rw [decide_eq_true hni, Bool.true_and, Bool.true_and]
    rw [Nat.testBit_two_pow_sub_one, Nat.testBit_shiftRight]
    by_cases h64 : i < 64
    · have hlt : i - n < 64 - n := by omega
      have hidx : n + (i - n) = i := by omega
      simp [hlt, hidx]
    · have hno : ¬ (i - n < 64 - n) := by omega
      have hzero : y.testBit (n + (i - n)) = false := by
        apply Nat.testBit_eq_false_of_lt
        have hW : W64 = 2 ^ 64 := rfl
        have hle : (2:Nat) ^ 64 ≤ 2 ^ (n + (i - n)) := Nat.pow_le_pow_right (by norm_num) (by omega)
        omega
      simp [hno, hzero]
  · simp [decide_eq_false hni]

lemma not64_eq (a : Nat) (ha : a < W64) : not64 a = W64 - 1 - a := by
  simp [not64, Nat.mod_eq_of_lt ha]

/-- The mask used by the aligned-bump path: not64 (2^k - 1) is 2^64 - 2^k. -/
lemma not64_pow_sub_one (k : Nat) (hk : k < 64) : not64 (2 ^ k - 1) = W64 - 2 ^ k := by
  have hle : (2:Nat) ^ k ≤ 2 ^ 64 := Nat.pow_le_pow_right (by norm_num) (by omega)
  have hp : 0 < (2:Nat) ^ k := Nat.pos_pow_of_pos k (by norm_num)
  have hW : W64 = 2 ^ 64 := rfl
  have h1 : 2 ^ k - 1 < W64 := by omega
  rw [not64_eq _ h1, hW]
  revert hle hp
  generalize (2:Nat) ^ k = p
  intro hle hp
  omega

/-- If n is positive and n and (n-1) is zero, n is a power of two: the
validity of the power-of-two guard used by pool_alloc. -/
lemma pow2_of_land_pred (n : Nat) : 0 < n → n &&& (n - 1) = 0 → ∃ k, n = 2 ^ k := by
  induction n using Nat.strong_induction_on with
  | _ n ih =>
    intro hpos hland
    rcases Nat.even_or_odd n with he | ho
    · obtain ⟨m, hm⟩ := he
      have hn2 : n = 2 * m := by omega
      have hmpos : 0 < m := by omega
      have hdiv : n / 2 = m := by omega
      have hdiv1 : (n - 1) / 2 = m - 1 := by omega
      have hinner : m &&& (m - 1) = 0 := by
        apply Nat.eq_of_testBit_eq
        intro i
        have hbit : (n &&& (n - 1)).testBit (i + 1) = Nat.testBit 0 (i + 1) := by rw [hland]
        rw [Nat.testBit_land] at hbit
        simp only [Nat.testBit_succ, hdiv, hdiv1, Nat.zero_div, Nat.zero_testBit] at hbit
        rw [Nat.testBit_land, Nat.zero_testBit]
        exact hbit
      obtain ⟨k, hk⟩ := ih m (by omega) hmpos hinner
      exact ⟨k + 1, by rw [hn2, hk, pow_succ]; ring⟩
    · by_cases h1 : n = 1
      · exact ⟨0, by simp [h1]⟩
      · exfalso
        obtain ⟨m, hm⟩ := ho
        have hmpos : 0 < m := by omega
        have hdiv : n / 2 = m := by omega
        have hdiv1 : (n - 1) / 2 = m := by omega
        have hbitex : ∃ i, m.testBit i = true := by
          by_contra hno
          push_neg at hno
          have : m = 0 := Nat.eq_of_testBit_eq (fun i => by simp [hno i])
          omega
        obtain ⟨i, hi⟩ := hbitex
        have hbit : (n &&& (n - 1)).testBit (i + 1) = Nat.testBit 0 (i + 1) := by rw [hland]
        rw [Nat.testBit_land] at hbit
        simp only [Nat.testBit_succ, hdiv, hdiv1, hi, Nat.zero_div, Nat.zero_testBit] at hbit
        simp at hbit

/-! ## Memory lemmas -/
lemma writeBytes_out : ∀ (k : Nat) (m : Mem) (a v y : Nat), (y < a ∨ a + k ≤ y) →
    writeBytes m a v k y = m y := by
  intro k
  induction k with
  | zero => intro m a v y _; rfl
  | succ k ih =>
    intro m a v y hy
    show writeBytes (updByte m a (v % 256)) (a + 1) (v / 256) k y = m y
    rw [ih _ _ _ _ (by omega)]
    unfold updByte
    have : y ≠ a := by omega
    simp [this]

lemma readBytes_congr : ∀ (k : Nat) (m1 m2 : Mem) (a : Nat),
    (∀ i, i < k → m1 (a + i) = m2 (a + i)) → readBytes m1 a k = readBytes m2 a k := by
  intro k
  induction k with
  | zero => intro m1 m2 a _; rfl
  | succ k ih =>
    intro m1 m2 a h
    show m1 a + 256 * readBytes m1 (a + 1) k = m2 a + 256 * readBytes m2 (a + 1) k
    have h0 : m1 a = m2 a := by simpa using h 0 (by omega)
    have hr : readBytes m1 (a + 1) k = readBytes m2 (a + 1) k := by
      apply ih
      intro i hi
      have := h (1 + i) (by omega)
      simpa [Nat.add_assoc] using this
    rw [h0, hr]

lemma readBytes_writeBytes : ∀ (k : Nat) (m : Mem) (a v : Nat),
    readBytes (writeBytes m a v k) a k = v % 256 ^ k := by
  intro k
  induction k with
  | zero => intro m a v; rw [pow_zero, Nat.mod_one]; rfl
  | succ k ih =>
    intro m a v
    show readBytes (writeBytes (updByte m a (v % 256)) (a + 1) (v / 256) k) a (k + 1)
        = v % 256 ^ (k + 1)
    have hM : readBytes (writeBytes (updByte m a (v % 256)) (a + 1) (v / 256) k) a (k + 1)
        = (writeBytes (updByte m a (v % 256)) (a + 1) (v / 256) k) a
          + 256 * readBytes (writeBytes (updByte m a (v % 256)) (a + 1) (v / 256) k) (a + 1) k := rfl
    rw [hM, writeBytes_out _ _ _ _ _ (by omega), ih]
    have ha : updByte m a (v % 256) a = v % 256 := by simp [updByte]
    rw [ha]
    have hpow : (256:Nat) ^ (k + 1) = 256 * 256 ^ k := by
      rw [pow_succ]; ring
    rw [hpow, Nat.mod_mul]

lemma readWord_writeWord (m : Mem) (a v : Nat) : readWord (writeWord m a v) a = v % W64 := by
  unfold readWord writeWord
  have h8 : (256:Nat) ^ 8 = W64 := by norm_num [W64]
  rw [readBytes_writeBytes, h8]

lemma readWord_out (m : Mem) (a v y : Nat) (h : y + 8 ≤ a ∨ a + 8 ≤ y) :
    readWord (writeWord m a v) y = readWord m y := by
  unfold readWord writeWord
  apply readBytes_congr
  intro i hi
  apply writeBytes_out
  omega

lemma writeChain_readWord_out : ∀ (k : Nat) (m : Mem) (a cs y : Nat), 8 ≤ cs → y + 8 ≤ a →
    readWord (writeChain m a cs k) y = readWord m y := by
  intro k
  induction k with
  | zero =>
    intro m a cs y hcs hy
    exact readWord_out m a 0 y (Or.inl hy)
  | succ k ih =>
    intro m a cs y hcs hy
    show readWord (writeChain (writeWord m a (a + cs)) (a + cs) cs k) y = readWord m y
    rw [ih _ _ _ _ hcs (by omega), readWord_out _ _ _ _ (Or.inl hy)]

/-- Reading the link word of cell j after the free-list building loop:
cell j points at cell j+1, the last cell holds the null link. -/
lemma writeChain_read : ∀ (k : Nat) (m : Mem) (a cs j : Nat), 16 ≤ cs → j ≤ k →
    a + k * cs < W64 →
    readWord (writeChain m a cs k) (a + j * cs) = if j < k then a + (j + 1) * cs else 0 := by
  intro k
  induction k with
  | zero =>
    intro m a cs j hcs hj hb
    have hj0 : j = 0 := by omega
    subst hj0
    simp only [Nat.zero_mul, Nat.add_zero, Nat.lt_irrefl, if_false]
    show readWord (writeWord m a 0) a = 0
    rw [readWord_writeWord]
    decide
  | succ k ih =>
    intro m a cs j hcs hj hb
    have hcsk : cs ≤ (k + 1) * cs := by
      calc cs = 1 * cs := (Nat.one_mul cs).symm
      _ ≤ (k + 1) * cs := Nat.mul_le_mul_right cs (by omega)
    show readWord (writeChain (writeWord m a (a + cs)) (a + cs) cs k) (a + j * cs) = _
    match j with
    | 0 =>
      simp only [Nat.zero_mul, Nat.add_zero, Nat.zero_lt_succ, if_true]
      rw [writeChain_readWord_out _ _ _ _ _ (by omega) (by omega)]
      rw [readWord_writeWord]
      have : a + cs < W64 := by omega
      rw [Nat.mod_eq_of_lt this]
      ring
    | j' + 1 =>
      have harg : a + (j' + 1) * cs = (a + cs) + j' * cs := by ring
      have hb' : (a + cs) + k * cs < W64 := by
        have : (a + cs) + k * cs = a + (k + 1) * cs := by ring
        omega
      rw [harg, ih _ _ _ _ hcs (by omega) hb']
      by_cases hlt : j' < k
      · have h2 : j' + 1 < k + 1 := by omega
        simp only [hlt, if_true, h2]
        ring
      · have h2 : ¬ (j' + 1 < k + 1) := by omega
        simp only [hlt, if_false, h2]

lemma slabInit_eq (b N os : Nat) (hN : N ≠ 0) (hos : 8 ≤ os) (hb : b ≠ 0) :
    slabInit b N os = some (freshSlab b (align_size os) N) := by
  unfold slabInit freshSlab
  have h1 : ¬ (N = 0 ∨ os < 8) := by omega
  simp [h1, hb]

lemma slabAfter_zero (b cs N : Nat) (hN : 0 < N) : slabAfter b cs N 0 = freshSlab b cs N := by
  unfold slabAfter
  have h0 : (if 0 < N then b + 0 * cs else 0) = b := by simp [hN]
  rw [h0]
  rfl

lemma slabAlloc_after (b cs N k : Nat) (hcs : 16 ≤ cs) (hb : 0 < b) (hk : k < N)
    (hbound : b + N * cs + 32 < W64) :
    slabAlloc (slabAfter b cs N k) = (some (b + k * cs + 32), slabAfter b cs N (k + 1)) := by
  have hkcs : k * cs ≤ N * cs := Nat.mul_le_mul_right cs (by omega)
  have hfl : (slabAfter b cs N k).free_list = b + k * cs := by simp [slabAfter, hk]
  have hne : (slabAfter b cs N k).free_list ≠ 0 := by rw [hfl]; omega
  unfold slabAlloc
  rw [if_neg hne, hfl]
  have hptr : add64 (b + k * cs) 32 = b + k * cs + 32 := add64_eq_of_lt (by omega)
  have hmem : (slabAfter b cs N k).mem = writeChain zeroMem b cs (N - 1) := rfl
  have hNcs : (N - 1) * cs ≤ N * cs := Nat.mul_le_mul_right cs (by omega)
  have hread : readWord (writeChain zeroMem b cs (N - 1)) (b + k * cs)
      = if k < N - 1 then b + (k + 1) * cs else 0 :=
    writeChain_read (N - 1) zeroMem b cs k hcs (by omega) (by omega)
  rw [hptr, hmem, hread]
  have hflip : (if k < N - 1 then b + (k + 1) * cs else 0)
      = (if k + 1 < N then b + (k + 1) * cs else 0) := by
    by_cases h : k < N - 1
    · rw [if_pos h, if_pos (by omega)]
    · rw [if_neg h, if_neg (by omega)]
  rw [hflip]
  rfl

lemma runAllocs_after (b cs N : Nat) (hcs : 16 ≤ cs) (hb : 0 < b)
    (hbound : b + N * cs + 32 < W64) :
    ∀ (n k : Nat), k + n ≤ N →
      runAllocs (slabAfter b cs N k) n
        = ((List.range n).map (fun j => some (b + (k + j) * cs + 32)), slabAfter b cs N (k + n)) := by
  intro n
  induction n with
  | zero => intro k _; simp [runAllocs]
  | succ n ih =>
    intro k hkn
    have hstep := slabAlloc_after b cs N k hcs hb (by omega) hbound
    have hrec := ih (k + 1) (by omega)
    have hrun : runAllocs (slabAfter b cs N k) (n + 1)
        = ((slabAlloc (slabAfter b cs N k)).1
            :: (runAllocs (slabAlloc (slabAfter b cs N k)).2 n).1,
           (runAllocs (slabAlloc (slabAfter b cs N k)).2 n).2) := rfl
    rw [hrun, hstep]
    simp only [hrec]
    rw [List.range_succ_eq_map, List.map_cons, List.map_map]
    have h1 : k + 1 + n = k + (n + 1) := by omega
    rw [h1]
    refine congrArg₂ Prod.mk ?_ rfl
    refine congrArg₂ List.cons (by norm_num) ?_
    apply List.map_congr_left
    intro j _
    have h3 : k + 1 + j = k + (j + 1) := by omega
    simp [Function.comp, h3]

/-! ## align_size lemmas -/
lemma not64_fifteen : not64 15 = W64 - 2 ^ 4 := by decide

lemma align_size_eq (os : Nat) (h : os + 15 < W64) :
    align_size os = (os + 15) - (os + 15) % 16 := by
  unfold align_size
  rw [add64_eq_of_lt h, not64_fifteen, land_mask_eq _ 4 h (by omega)]
  norm_num

lemma align_size_dvd (os : Nat) : 16 ∣ align_size os := by
  unfold align_size
  rw [not64_fifteen]
  have h4 : (16:Nat) = 2 ^ 4 := by norm_num
  rw [h4]
  apply dvd_land_of_dvd
  apply Nat.dvd_sub'
  · exact ⟨2 ^ 60, by norm_num [W64]⟩
  · exact dvd_refl _

lemma align_size_ge (os : Nat) (h : os + 15 < W64) : os ≤ align_size os := by
  rw [align_size_eq os h]
  have := Nat.mod_lt (os + 15) (show 0 < 16 by norm_num)
  omega

lemma align_size_ge16 (os : Nat) (h8 : 8 ≤ os) (hW : os + 15 < W64) : 16 ≤ align_size os := by
  have h1 := align_size_ge os hW
  obtain ⟨c, hc⟩ := align_size_dvd os
  omega

lemma slabAlloc_fl_zero (s : SlabState) (h : s.free_list = 0) : slabAlloc s = (none, s) := by
  unfold slabAlloc
  rw [if_pos h]

lemma slabAlloc_fl_ne (s : SlabState) (h : s.free_list ≠ 0) :
    slabAlloc s = (some (add64 s.free_list 32), { s with free_list := readWord s.mem s.free_list }) := by
  unfold slabAlloc
  rw [if_neg h]

/-! ## Slab claim theorems -/
/-- C5: a fresh slab of capacity N yields exactly N successful allocs
(at the expected cell addresses), the next alloc is empty, and after a
slab_free of the k-th returned pointer exactly one more alloc succeeds
(returning that same pointer) before empty again. -/
theorem claim_C5 (N object_size b k : Nat) (s0 : SlabState)
    (hN : 1 ≤ N) (hos : 8 ≤ object_size) (hosW : object_size + 15 < W64) (hb : b ≠ 0)
    (hbound : b + N * align_size object_size + 32 < W64) (hk : k < N)
    (hinit : slabInit b N object_size = some s0) :
    (runAllocs s0 N).1
        = (List.range N).map (fun j => some (b + j * align_size object_size + 32))
    ∧ (slabAlloc (runAllocs s0 N).2).1 = none
    ∧ (slabAlloc (slabFree (runAllocs s0 N).2 (b + k * align_size object_size + 32))).1
        = some (b + k * align_size object_size + 32)
    ∧ (slabAlloc (slabAlloc (slabFree (runAllocs s0 N).2
        (b + k * align_size object_size + 32))).2).1 = none := by
  have hcs : 16 ≤ align_size object_size := align_size_ge16 _ hos hosW
  have hkcs : k * align_size object_size ≤ N * align_size object_size :=
    Nat.mul_le_mul_right _ (by omega)
  have hs0 : s0 = freshSlab b (align_size object_size) N := by
    have h2 := slabInit_eq b N object_size (by omega) hos hb
    rw [hinit] at h2
    exact Option.some_inj.mp h2
  have hz := slabAfter_zero b (align_size object_size) N (by omega)
  have hrun := runAllocs_after b (align_size object_size) N hcs (by omega) hbound N 0 (by omega)
  rw [hz] at hrun
  rw [hs0, hrun]
  dsimp only
  simp only [Nat.zero_add]
  have hafter : (slabAfter b (align_size object_size) N N).free_list = 0 := by
    simp [slabAfter]
  have hobj : sub64 (b + k * align_size object_size + 32) 32 = b + k * align_size object_size :=
    sub64_add_cancel (by norm_num) (by decide) (by omega)
  have hptrne : b + k * align_size object_size + 32 ≠ 0 := by omega
  have hflne : b + k * align_size object_size ≠ 0 := by
    have hbpos : 0 < b := Nat.pos_of_ne_zero hb
    omega
  have hfr : slabFree (slabAfter b (align_size object_size) N N)
      (b + k * align_size object_size + 32)
      = { slabAfter b (align_size object_size) N N with
          mem := writeWord (slabAfter b (align_size object_size) N N).mem
                   (b + k * align_size object_size) 0,
          free_list := b + k * align_size object_size } := by
    unfold slabFree
    rw [if_neg hptrne, hobj, hafter]
  have hread : readWord
      (writeWord (slabAfter b (align_size object_size) N N).mem
        (b + k * align_size object_size) 0)
      (b + k * align_size object_size) = 0 := by
    rw [readWord_writeWord]
    decide
  refine ⟨by trivial, ?_, ?_, ?_⟩
  · rw [slabAlloc_fl_zero _ hafter]
  · rw [hfr, slabAlloc_fl_ne _ (by exact hflne)]
    dsimp only
    rw [add64_eq_of_lt (by omega)]
  · rw [hfr]
    rw [slabAlloc_fl_ne ({ slabAfter b (align_size object_size) N N with
          mem := writeWord (slabAfter b (align_size object_size) N N).mem
                   (b + k * align_size object_size) 0,
          free_list := b + k * align_size object_size }) (by exact hflne)]
    dsimp only
    rw [slabAlloc_fl_zero _ (by exact hread)]

/-- Witness for C5 at capacity 3, object size 64, base 4096, freeing the
second returned pointer. -/
theorem claim_C5_witness :
    slabInit 4096 3 64 = some (freshSlab 4096 (align_size 64) 3)
    ∧ ((runAllocs (freshSlab 4096 (align_size 64) 3) 3).1
        = (List.range 3).map (fun j => some (4096 + j * align_size 64 + 32))
      ∧ (slabAlloc (runAllocs (freshSlab 4096 (align_size 64) 3) 3).2).1 = none
      ∧ (slabAlloc (slabFree (runAllocs (freshSlab 4096 (align_size 64) 3) 3).2
          (4096 + 1 * align_size 64 + 32))).1 = some (4096 + 1 * align_size 64 + 32)
      ∧ (slabAlloc (slabAlloc (slabFree (runAllocs (freshSlab 4096 (align_size 64) 3) 3).2
          (4096 + 1 * align_size 64 + 32))).2).1 = none) :=
  ⟨rfl, claim_C5 3 64 4096 1 (freshSlab 4096 (align_size 64) 3)
      (by decide) (by decide) (by decide) (by decide) (by decide) (by decide) rfl⟩

/-- C9: on a fresh slab with no intervening free, the k-th successful
slab_alloc (1-indexed) returns base + (k-1) * cell_size + 32: cells are
handed out in ascending address order. -/
theorem claim_C9 (N object_size b k : Nat) (s0 : SlabState)
    (hN : 1 ≤ N) (hos : 8 ≤ object_size) (hosW : object_size + 15 < W64) (hb : b ≠ 0)
    (hbound : b + N * align_size object_size + 32 < W64)
    (hk1 : 1 ≤ k) (hk2 : k ≤ N)
    (hinit : slabInit b N object_size = some s0) :
    (runAllocs s0 N).1[k - 1]?
      = some (some (b + (k - 1) * align_size object_size + 32)) := by
  have hcs : 16 ≤ align_size object_size := align_size_ge16 _ hos hosW
  have hs0 : s0 = freshSlab b (align_size object_size) N := by
    have h2 := slabInit_eq b N object_size (by omega) hos hb
    rw [hinit] at h2
    exact Option.some_inj.mp h2
  have hz := slabAfter_zero b (align_size object_size) N (by omega)
  have hrun := runAllocs_after b (align_size object_size) N hcs (by omega) hbound N 0 (by omega)
  rw [hz] at hrun
  rw [hs0, hrun]
  dsimp only
  rw [List.getElem?_map, List.getElem?_range (by omega)]
  simp

/-- Witness for C9: third alloc of a fresh capacity-3 slab returns cell 2. -/
theorem claim_C9_witness :
    slabInit 4096 3 64 = some (freshSlab 4096 (align_size 64) 3)
    ∧ (runAllocs (freshSlab 4096 (align_size 64) 3) 3).1[(3:Nat) - 1]?
        = some (some (4096 + (3 - 1) * align_size 64 + 32)) :=
  ⟨rfl, claim_C9 3 64 4096 3 (freshSlab 4096 (align_size 64) 3)
      (by decide) (by decide) (by decide) (by decide) (by decide) (by decide) (by decide) rfl⟩

/-- C1 is a code bug: filling a fresh capacity-2 slab succeeds twice,
but after slab_reset only the first slab_alloc succeeds (its bytes do
read zero) and the second returns empty, because the bulk zeroing of the
region runs after the free-list links were rebuilt and erases them. -/
theorem claim_C1_eval :
    ((slabInit 4096 2 64).map (fun s0 =>
      ((runAllocs s0 2).1,
       (slabAlloc (slabReset (runAllocs s0 2).2)).1,
       (slabAlloc (slabAlloc (slabReset (runAllocs s0 2).2)).2).1,
       (slabReset (runAllocs s0 2).2).mem 4131)))
    = some ([some 4128, some 4192], some 4128, none, 0) := by decide

/-- Counterexample to C6 as stated: object_size 8 is accepted by
slab_init (8 = sizeof machine word) and yields cell_size 16, which is
not at least 32. -/
theorem claim_C6_counterexample :
    (slabInit 4096 1 8).map SlabState.object_size = some 16 ∧ ¬ (32 ≤ 16) := by decide

/-- C6 amended: cell_size is object_size rounded up to a 16-byte
multiple, hence a multiple of 16, at least 16 (not 32) and at least
object_size, and the region request is exactly cell_size * capacity. -/
theorem claim_C6_amended (b N os : Nat) (s : SlabState) (hN : N ≠ 0) (hos : 8 ≤ os)
    (hosW : os + 15 < W64) (hb : b ≠ 0) (hinit : slabInit b N os = some s) :
    s.object_size = align_size os ∧ 16 ≤ s.object_size ∧ 16 ∣ s.object_size
    ∧ os ≤ s.object_size ∧ s.region_bytes = s.object_size * N := by
  have hs : s = freshSlab b (align_size os) N := by
    have h2 := slabInit_eq b N os hN hos hb
    rw [hinit] at h2
    exact Option.some_inj.mp h2
  subst hs
  exact ⟨rfl, align_size_ge16 os hos hosW, align_size_dvd os, align_size_ge os hosW, rfl⟩

/-- Witness for the amended C6 at capacity 2, object size 24. -/
theorem claim_C6_witness :
    slabInit 4096 2 24 = some (freshSlab 4096 (align_size 24) 2)
    ∧ ((freshSlab 4096 (align_size 24) 2).object_size = align_size 24
      ∧ 16 ≤ (freshSlab 4096 (align_size 24) 2).object_size
      ∧ 16 ∣ (freshSlab 4096 (align_size 24) 2).object_size
      ∧ 24 ≤ (freshSlab 4096 (align_size 24) 2).object_size
      ∧ (freshSlab 4096 (align_size 24) 2).region_bytes
          = (freshSlab 4096 (align_size 24) 2).object_size * 2) :=
  ⟨rfl, claim_C6_amended 4096 2 24 (freshSlab 4096 (align_size 24) 2)
      (by decide) (by decide) (by decide) (by decide) rfl⟩

/-! ## Pool lemmas -/
/-- A failed first-fit walk changes neither the free-list head nor the
header memory (the walk only writes when it finds a match). -/
lemma rfbGo_zero (asz align : Nat) :
    ∀ (fuel : Nat) (h : HMem) (fl prev cur r fl2 : Nat) (h2 : HMem),
      (∀ a bh, lookupH h a = some bh → a + 32 < W64) →
      rfbGo asz align fuel h fl prev cur = some (r, fl2, h2) → r = 0 →
      fl2 = fl ∧ h2 = h := by
  intro fuel
  induction fuel with
  | zero =>
    intro h fl prev cur r fl2 h2 _ heq _
    simp [rfbGo] at heq
  | succ fuel ih =>
    intro h fl prev cur r fl2 h2 hws heq hr
    rw [rfbGo] at heq
    by_cases hcur : cur = 0
    · rw [if_pos hcur] at heq
      simp only [Option.some_inj, Prod.mk.injEq] at heq
      exact ⟨heq.2.1.symm, heq.2.2.symm⟩
    · rw [if_neg hcur] at heq
      by_cases hal : align = 0
      · rw [if_pos hal] at heq
        exact absurd heq (by simp)
      · rw [if_neg hal] at heq
        split at heq
        · exact absurd heq (by simp)
        · rename_i bh hlk
          by_cases hcond : add64 cur 32 % align = 0 ∧ asz ≤ bh.size
          · rw [if_pos hcond] at heq
            have hcw := hws cur bh hlk
            have hne : add64 cur 32 ≠ 0 := by
              rw [add64_eq_of_lt (by omega)]
              omega
            split at heq
            · exact absurd heq (by simp)
            · split at heq <;>
                (simp only [Option.some_inj, Prod.mk.injEq] at heq; omega)
          · rw [if_neg hcond] at heq
            exact ih h fl cur bh.next_free r fl2 h2 hws heq hr

/-- A successful first-fit walk returns a pointer that passed the
alignment test. -/
lemma rfbGo_aligned (asz align : Nat) (hal : align ≠ 0) :
    ∀ (fuel : Nat) (h : HMem) (fl prev cur r fl2 : Nat) (h2 : HMem),
      rfbGo asz align fuel h fl prev cur = some (r, fl2, h2) → r ≠ 0 →
      r % align = 0 := by
  intro fuel
  induction fuel with
  | zero =>
    intro h fl prev cur r fl2 h2 heq _
    simp [rfbGo] at heq
  | succ fuel ih =>
    intro h fl prev cur r fl2 h2 heq hr
    rw [rfbGo] at heq
    by_cases hcur : cur = 0
    · rw [if_pos hcur] at heq
      simp only [Option.some_inj, Prod.mk.injEq] at heq
      omega
    · rw [if_neg hcur] at heq
      rw [if_neg hal] at heq
      split at heq
      · exact absurd heq (by simp)
      · rename_i bh hlk
        by_cases hcond : add64 cur 32 % align = 0 ∧ asz ≤ bh.size
        · rw [if_pos hcond] at heq
          split at heq
          · exact absurd heq (by simp)
          · split at heq <;>
              (simp only [Option.some_inj, Prod.mk.injEq] at heq;
               obtain ⟨h1, -⟩ := heq; rw [← h1]; exact hcond.1)
        · rw [if_neg hcond] at heq
          exact ih h fl cur bh.next_free r fl2 h2 heq hr

lemma sub64_pred (a : Nat) (ha : 0 < a) (haW : a < W64) : sub64 a 1 = a - 1 := by
  have h2 : a - 1 + 1 = a := by omega
  have := sub64_add_cancel (x := a - 1) (c := 1) (by norm_num) (by decide) (by omega)
  rw [h2] at this
  exact this

/-- The bump path hands back a pointer produced by the and-mask, so it is
divisible by the (power-of-two) alignment. -/
lemma allocFromBlock_aligned (b : PoolBlock) (asz align kk : Nat)
    (halign : align = 2 ^ kk) (hkk : kk < 64)
    (ptr newOff ha : Nat) (hv : BlockHeader)
    (heq : allocFromBlock b asz align = some (ptr, newOff, ha, hv)) :
    align ∣ ptr := by
  have hpow : (0:Nat) < 2 ^ kk := Nat.pos_pow_of_pos kk (by norm_num)
  have hlt : (2:Nat) ^ kk < W64 := by
    have : (2:Nat) ^ kk < 2 ^ 64 := Nat.pow_lt_pow_right (by norm_num) hkk
    exact this
  have ham : sub64 align 1 = 2 ^ kk - 1 := by
    rw [halign]
    exact sub64_pred _ hpow hlt
  have hmask : not64 (sub64 align 1) = W64 - 2 ^ kk := by
    rw [ham]
    exact not64_pow_sub_one kk hkk
  simp only [allocFromBlock] at heq
  split at heq
  · exact absurd heq (by simp)
  · simp only [Option.some_inj, Prod.mk.injEq] at heq
    obtain ⟨hptr, _⟩ := heq
    rw [← hptr, hmask, halign]
    apply dvd_land_of_dvd
    apply Nat.dvd_sub'
    · exact Nat.pow_dvd_pow 2 (by omega)
    · exact dvd_refl _

/-- Under realistic bounds a committed bump result lies at or above the
candidate payload address, in particular it is nonzero. -/
lemma allocFromBlock_ge (b : PoolBlock) (asz align kk : Nat)
    (halign : align = 2 ^ kk) (hkk : kk < 64)
    (hb : b.base + b.offset + 32 + align < W64)
    (ptr newOff ha : Nat) (hv : BlockHeader)
    (heq : allocFromBlock b asz align = some (ptr, newOff, ha, hv)) :
    b.base + b.offset + 32 ≤ ptr := by
  have hpow : (0:Nat) < 2 ^ kk := Nat.pos_pow_of_pos kk (by norm_num)
  have hlt : (2:Nat) ^ kk < W64 := by
    have : (2:Nat) ^ kk < 2 ^ 64 := Nat.pow_lt_pow_right (by norm_num) hkk
    exact this
  have ham : sub64 align 1 = 2 ^ kk - 1 := by
    rw [halign]
    exact sub64_pred _ hpow hlt
  have hmask : not64 (sub64 align 1) = W64 - 2 ^ kk := by
    rw [ham]
    exact not64_pow_sub_one kk hkk
  have hraw : add64 b.base b.offset = b.base + b.offset := add64_eq_of_lt (by omega)
  have hcand : add64 (b.base + b.offset) 32 = b.base + b.offset + 32 := add64_eq_of_lt (by omega)
  have hy : add64 (b.base + b.offset + 32) (2 ^ kk - 1)
      = b.base + b.offset + 32 + (2 ^ kk - 1) := add64_eq_of_lt (by omega)
  have hmod := Nat.mod_lt (b.base + b.offset + 32 + (2 ^ kk - 1)) hpow
  simp only [allocFromBlock] at heq
  rw [hraw, hcand, hmask, ham, hy] at heq
  rw [land_mask_eq _ kk (by omega) (by omega)] at heq
  split at heq
  · exact absurd heq (by simp)
  · simp only [Option.some_inj, Prod.mk.injEq] at heq
    obtain ⟨hptr, _⟩ := heq
    omega

lemma bumpBlocks_some_ne (asz align : Nat) :
    ∀ (bs : List PoolBlock) (ptr : Nat) (bl2 : List PoolBlock) (ws : List (Nat × BlockHeader)),
      bumpBlocks asz align bs = (some ptr, bl2, ws) → ptr ≠ 0 := by
  intro bs
  induction bs with
  | nil =>
    intro ptr bl2 ws heq
    simp [bumpBlocks] at heq
  | cons b rest ih =>
    intro ptr bl2 ws heq
    rw [bumpBlocks] at heq
    split at heq
    · rename_i ptr0 newOff ha hv hafb
      split at heq
      · simp only [Prod.mk.injEq] at heq
        exact ih ptr (bumpBlocks asz align rest).2.1 (bumpBlocks asz align rest).2.2
          (by rw [← heq.1])
      · rename_i hne
        simp only [Prod.mk.injEq, Option.some_inj] at heq
        omega
    · simp only [Prod.mk.injEq] at heq
      exact ih ptr (bumpBlocks asz align rest).2.1 (bumpBlocks asz align rest).2.2
        (by rw [← heq.1])

/-- When no region's bump space suffices, the loop leaves the chain and
header memory untouched (no commit can return 0 under realistic
bounds). -/
lemma bumpBlocks_none_id (asz align kk : Nat) (halign : align = 2 ^ kk) (hkk : kk < 64) :
    ∀ (bs : List PoolBlock), (∀ blk ∈ bs, blk.base + blk.offset + 32 + align < W64) →
      (bumpBlocks asz align bs).1 = none →
      bumpBlocks asz align bs = (none, bs, []) := by
  intro bs
  induction bs with
  | nil => intro _ _; rfl
  | cons b rest ih =>
    intro hbd hfst
    rw [bumpBlocks] at hfst ⊢
    split at hfst
    · rename_i ptr0 newOff ha hv hafb
      have hge := allocFromBlock_ge b asz align kk halign hkk
        (hbd b (List.mem_cons_self b rest)) ptr0 newOff ha hv hafb
      have hne : ptr0 ≠ 0 := by omega
      rw [if_neg hne] at hfst
      exact absurd hfst (by simp)
    · rename_i hafb
      have hrest := ih (fun blk hm => hbd blk (List.mem_cons_of_mem b hm)) hfst
      show ((bumpBlocks asz align rest).1,
            b :: (bumpBlocks asz align rest).2.1,
            (bumpBlocks asz align rest).2.2) = (none, b :: rest, [])
      rw [hrest]

/-- A successful bump result came from alloc_from_block, so it is
divisible by the (power-of-two) alignment. -/
lemma bumpBlocks_some_aligned (asz align kk : Nat) (halign : align = 2 ^ kk) (hkk : kk < 64) :
    ∀ (bs : List PoolBlock) (ptr : Nat) (bl2 : List PoolBlock) (ws : List (Nat × BlockHeader)),
      bumpBlocks asz align bs = (some ptr, bl2, ws) → align ∣ ptr := by
  intro bs
  induction bs with
  | nil =>
    intro ptr bl2 ws heq
    simp [bumpBlocks] at heq
  | cons b rest ih =>
    intro ptr bl2 ws heq
    rw [bumpBlocks] at heq
    split at heq
    · rename_i ptr0 newOff ha hv hafb
      split at heq
      · simp only [Prod.mk.injEq] at heq
        exact ih ptr (bumpBlocks asz align rest).2.1 (bumpBlocks asz align rest).2.2
          (by rw [← heq.1])
      · simp only [Prod.mk.injEq, Option.some_inj] at heq
        obtain ⟨h1, -⟩ := heq
        rw [← h1]
        exact allocFromBlock_aligned b asz align kk halign hkk ptr0 newOff ha hv hafb
    · simp only [Prod.mk.injEq] at heq
      exact ih ptr (bumpBlocks asz align rest).2.1 (bumpBlocks asz align rest).2.2
        (by rw [← heq.1])

/-- A power of two passes the pool_alloc guard. -/
lemma pow2_land_pred (kk : Nat) : (2 ^ kk) &&& (2 ^ kk - 1) = 0 := by
  apply Nat.eq_of_testBit_eq
  intro i
  rw [Nat.testBit_land, Nat.zero_testBit, Nat.testBit_two_pow, Nat.testBit_two_pow_sub_one]
  by_cases h : kk = i
  · subst h
    simp
  · simp [h]

lemma dvd_mod_W64 (x d : Nat) (hdW : d ∣ W64) (hx : d ∣ x) : d ∣ x % W64 := by
  have h1 : x % W64 = x - W64 * (x / W64) := by
    have := Nat.div_add_mod x W64
    omega
  rw [h1]
  exact Nat.dvd_sub' hx (Dvd.dvd.mul_right hdW _)

/-- C8: every successful pool_alloc with power-of-two alignment returns a
pointer divisible by the alignment, on the first-fit path, the bump path
and the growth path alike; a slab_alloc pop returns head + 32, divisible
by 16 whenever the head is; and on a fresh slab (16-aligned base) every
successful slab_alloc returns a pointer divisible by 16. -/
theorem claim_C8 :
    (∀ (p : Pool) (asz align kk : Nat) (os : Option Nat) (r : Nat) (p2 : Pool),
        align = 2 ^ kk → kk < 64 →
        poolAlloc p asz align os = some (r, p2) → r ≠ 0 → align ∣ r)
    ∧ (∀ (s : SlabState) (r : Nat),
        16 ∣ s.free_list → (slabAlloc s).1 = some r → 16 ∣ r)
    ∧ (∀ (N object_size b k : Nat) (s0 : SlabState),
        1 ≤ N → 8 ≤ object_size → object_size + 15 < W64 → b ≠ 0 → 16 ∣ b →
        b + N * align_size object_size + 32 < W64 → k < N →
        slabInit b N object_size = some s0 →
        (runAllocs s0 N).1[k]? = some (some (b + k * align_size object_size + 32))
        ∧ 16 ∣ (b + k * align_size object_size + 32)) := by
  refine ⟨?_, ?_, ?_⟩
  · intro p asz align kk os r p2 halign hkk heq hr
    have hpow : (0:Nat) < 2 ^ kk := Nat.pos_pow_of_pos kk (by norm_num)
    have hal0 : align ≠ 0 := by omega
    simp only [poolAlloc] at heq
    split at heq
    · simp only [Option.some_inj, Prod.mk.injEq] at heq
      omega
    · split at heq
      · exact absurd heq (by simp)
      · rename_i r0 fl2 h2 hrfb
        split at heq
        · rename_i hr0
          simp only [Option.some_inj, Prod.mk.injEq] at heq
          obtain ⟨h1, -⟩ := heq
          rw [← h1]
          exact Nat.dvd_of_mod_eq_zero
            (rfbGo_aligned asz align hal0 _ p.hdrs p.free_list 0 p.free_list r0 fl2 h2 hrfb hr0)
        · split at heq
          · rename_i ptr blocks2 ws hbump
            simp only [Option.some_inj, Prod.mk.injEq] at heq
            obtain ⟨h1, -⟩ := heq
            rw [← h1]
            exact bumpBlocks_some_aligned asz align kk halign hkk p.blocks ptr blocks2 ws hbump
          · rename_i blocks2 ws hbump
            split at heq
            · simp only [Option.some_inj, Prod.mk.injEq] at heq
              omega
            · rename_i a
              split at heq
              · simp only [Option.some_inj, Prod.mk.injEq] at heq
                omega
              · split at heq
                · rename_i ptr newOff ha2 hv hafb
                  simp only [Option.some_inj, Prod.mk.injEq] at heq
                  obtain ⟨h1, -⟩ := heq
                  rw [← h1]
                  exact allocFromBlock_aligned _ asz align kk halign hkk ptr newOff ha2 hv hafb
                · simp only [Option.some_inj, Prod.mk.injEq] at heq
                  omega
  · intro s r hdvd heq
    unfold slabAlloc at heq
    split at heq
    · exact absurd heq (by simp)
    · simp only [Option.some_inj] at heq
      rw [← heq]
      unfold add64
      apply dvd_mod_W64 _ _ (by decide)
      exact Nat.dvd_add hdvd (by decide)
  · intro N object_size b k s0 hN hos hosW hb hb16 hbound hk hinit
    have hcs : 16 ≤ align_size object_size := align_size_ge16 _ hos hosW
    have hs0 : s0 = freshSlab b (align_size object_size) N := by
      have h2 := slabInit_eq b N object_size (by omega) hos hb
      rw [hinit] at h2
      exact Option.some_inj.mp h2
    have hz := slabAfter_zero b (align_size object_size) N (by omega)
    have hrun := runAllocs_after b (align_size object_size) N hcs (by omega) hbound N 0 (by omega)
    rw [hz] at hrun
    constructor
    · rw [hs0, hrun]
      dsimp only
      rw [List.getElem?_map, List.getElem?_range (by omega)]
      simp
    · obtain ⟨c, hc⟩ := align_size_dvd object_size
      apply Nat.dvd_add
      apply Nat.dvd_add hb16
      · rw [hc]
        exact ⟨k * c, by ring⟩
      · decide

/-- Witness for C8: a first-fit hit at header 992 returns 1024 = 64 * 16;
a slab pop from 16-aligned head 4096 returns 4128; the second cell of a
fresh slab is returned at a 16-divisible address. -/
theorem claim_C8_witness :
    (poolAlloc { blocks := [{ base := 65568, size := 4096, offset := 0 }],
                 free_list := 992, initial_block_size := 4096,
                 hdrs := [(992, ⟨64, 0, 0⟩)] } 64 16 none
        = some (1024, { blocks := [{ base := 65568, size := 4096, offset := 0 }],
                        free_list := 0, initial_block_size := 4096,
                        hdrs := [(992, ⟨64, 0, 0⟩)] })
      ∧ 16 ∣ 1024)
    ∧ ((slabAlloc (freshSlab 4096 64 1)).1 = some 4128 ∧ 16 ∣ 4128)
    ∧ (16 ∣ (4096 + 1 * align_size 64 + 32)) :=
  ⟨⟨by decide,
    claim_C8.1 { blocks := [{ base := 65568, size := 4096, offset := 0 }],
                 free_list := 992, initial_block_size := 4096,
                 hdrs := [(992, ⟨64, 0, 0⟩)] } 64 16 4 none 1024
      { blocks := [{ base := 65568, size := 4096, offset := 0 }],
        free_list := 0, initial_block_size := 4096,
        hdrs := [(992, ⟨64, 0, 0⟩)] } (by norm_num) (by norm_num) (by decide) (by decide)⟩,
   ⟨by decide, claim_C8.2.1 (freshSlab 4096 64 1) 4128 (by decide) (by decide)⟩,
   (claim_C8.2.2 2 64 4096 1 (freshSlab 4096 (align_size 64) 2) (by decide) (by decide)
     (by decide) (by decide) (by decide) (by decide) (by decide) rfl).2⟩

/-- Counterexample to C3 as stated: a pool with one 4096-byte region and
an empty free list, asked for 4096 bytes at alignment 128 with the OS
granting a page at 131072, returns the failure value 0 yet appends a
second region to the chain: the aligned bump inside the fresh region
needs 32 + 64 + 4096 bytes, more than the 4128 usable bytes acquired. -/
theorem claim_C3_counterexample :
    (poolAlloc { blocks := [{ base := 65568, size := 4096, offset := 0 }],
                 free_list := 0, initial_block_size := 4096, hdrs := [] }
        4096 128 (some 131072)).map (fun x => (x.1, x.2.blocks))
    = some (0, [{ base := 65568, size := 4096, offset := 0 },
                { base := 131104, size := 4128, offset := 0 }]) := by decide

/-- C3 amended: a pool_alloc that returns 0 leaves the free list and the
header memory unchanged, and leaves the region chain unchanged except
that, when the OS granted the growth region but the aligned bump inside
it did not fit, the fresh (empty) region remains appended; with the OS
refusing (or no growth reached), the pool is exactly as before.
Alignment 0 is excluded here; it is the subject of C7. -/
theorem claim_C3_amended (p : Pool) (asz align : Nat) (os : Option Nat) (p2 : Pool)
    (halW : align < W64) (hal0 : align ≠ 0)
    (hhdrs : ∀ a bh, lookupH p.hdrs a = some bh → a + 32 < W64)
    (hblocks : ∀ blk ∈ p.blocks, blk.base + blk.offset + 32 + align < W64)
    (hos : ∀ a0, os = some a0 → a0 + 79 + align < W64)
    (heq : poolAlloc p asz align os = some (0, p2)) :
    p2.free_list = p.free_list ∧ p2.hdrs = p.hdrs
    ∧ (p2.blocks = p.blocks
       ∨ ∃ a0, os = some a0
          ∧ p2.blocks = p.blocks ++ [newRegion a0 (max p.initial_block_size (add64 asz 32))])
    ∧ (os = none → p2 = p) := by
  simp only [poolAlloc] at heq
  split at heq
  · simp only [Option.some_inj, Prod.mk.injEq] at heq
    obtain ⟨-, h2⟩ := heq
    exact ⟨by rw [← h2], by rw [← h2], Or.inl (by rw [← h2]), fun _ => h2.symm⟩
  · rename_i hguard
    push_neg at hguard
    obtain ⟨kk, hkk⟩ := pow2_of_land_pred align (Nat.pos_of_ne_zero hal0) hguard.2
    have hkk64 : kk < 64 := by
      have h1 : (2:Nat) ^ kk < 2 ^ 64 := by
        rw [← hkk]
        exact halW
      exact (Nat.pow_lt_pow_iff_right (by norm_num)).mp h1
    split at heq
    · exact absurd heq (by simp)
    · rename_i r0 fl2 h2 hrfb
      split at heq
      · rename_i hr0
        simp only [Option.some_inj, Prod.mk.injEq] at heq
        omega
      · rename_i hr0n
        have hr0 : r0 = 0 := by omega
        obtain ⟨hfl2, hh2⟩ :=
          rfbGo_zero asz align _ p.hdrs p.free_list 0 p.free_list r0 fl2 h2 hhdrs hrfb hr0
        subst hfl2 hh2
        split at heq
        · rename_i ptr blocks2 ws hbump
          have hne := bumpBlocks_some_ne asz align p.blocks ptr blocks2 ws hbump
          simp only [Option.some_inj, Prod.mk.injEq] at heq
          omega
        · rename_i blocks2 ws hbump
          have hbnone : (bumpBlocks asz align p.blocks).1 = none := by rw [hbump]
          have hbid := bumpBlocks_none_id asz align kk hkk hkk64 p.blocks hblocks hbnone
          rw [hbump] at hbid
          simp only [Prod.mk.injEq] at hbid
          obtain ⟨-, hbl, hws⟩ := hbid
          subst hbl hws
          split at heq
          · simp only [Option.some_inj, Prod.mk.injEq] at heq
            obtain ⟨-, hp2⟩ := heq
            refine ⟨by rw [← hp2]; try rfl, by rw [← hp2]; try rfl,
              Or.inl (by rw [← hp2]; try rfl), fun _ => ?_⟩
            rw [← hp2]
            rfl
          · rename_i a0
            split at heq
            · simp only [Option.some_inj, Prod.mk.injEq] at heq
              obtain ⟨-, hp2⟩ := heq
              exact ⟨by rw [← hp2]; try rfl, by rw [← hp2]; try rfl, Or.inl (by rw [← hp2]; try rfl), fun hcon => by
                exact absurd hcon (by simp)⟩
            · rename_i ha0
              split at heq
              · rename_i ptr newOff ha2 hv hafb
                have hosb := hos a0 rfl
                have hbase : (add64 (a0 + 32) 15) &&& (not64 15)
                    = (a0 + 47) - (a0 + 47) % 16 := by
                  have h47 : add64 (a0 + 32) 15 = a0 + 47 := add64_eq_of_lt (by omega)
                  rw [h47, not64_fifteen, land_mask_eq _ 4 (by omega) (by omega)]
                  norm_num
                have hnb : (newRegion a0 (max p.initial_block_size (add64 asz 32))).base
                    + (newRegion a0 (max p.initial_block_size (add64 asz 32))).offset
                    + 32 + align < W64 := by
                  show ((add64 (a0 + 32) 15) &&& (not64 15)) + 0 + 32 + align < W64
                  rw [hbase]
                  omega
                have hge := allocFromBlock_ge _ asz align kk hkk hkk64 hnb ptr newOff ha2 hv hafb
                simp only [Option.some_inj, Prod.mk.injEq] at heq
                omega
              · simp only [Option.some_inj, Prod.mk.injEq] at heq
                obtain ⟨-, hp2⟩ := heq
                refine ⟨by rw [← hp2]; try rfl, by rw [← hp2]; try rfl, Or.inr ⟨a0, rfl, by rw [← hp2]; try rfl⟩,
                  fun hcon => by exact absurd hcon (by simp)⟩

/-- Counterexample to C4 as stated: no free block matches (the list is
empty) and the single region cannot satisfy 2048 bytes at alignment 128,
the OS grants a region at 16384, yet the operation fails: the aligned
bump in the fresh region needs 32 + 64 + 2048 bytes, more than the 2080
usable bytes acquired.  The failure is not an OS refusal, and the fresh
region stays appended. -/
theorem claim_C4_counterexample :
    (poolAlloc { blocks := [{ base := 8224, size := 2048, offset := 0 }],
                 free_list := 0, initial_block_size := 2048, hdrs := [] }
        2048 128 (some 16384)).map (fun x => (x.1, x.2.blocks))
    = some (0, [{ base := 8224, size := 2048, offset := 0 },
                { base := 16416, size := 2080, offset := 0 }]) := by decide

/-- C4 amended: when the free-list walk finds nothing and no region's
bump space suffices, pool_alloc with the OS refusing returns 0 with the
pool unchanged; with the OS granting address a0, exactly one region of
usable size max(initial_region_size, size + 32) is appended at the end
of the chain, and the call either succeeds inside it with an aligned
pointer or returns 0 with the fresh empty region left appended. -/
theorem claim_C4_amended (p : Pool) (asz align kk : Nat) (os : Option Nat)
    (hasz : asz ≠ 0) (halign : align = 2 ^ kk) (hkk : kk < 64)
    (hhdrs : ∀ a bh, lookupH p.hdrs a = some bh → a + 32 < W64)
    (hblocks : ∀ blk ∈ p.blocks, blk.base + blk.offset + 32 + align < W64)
    (hos : ∀ a0, os = some a0 → a0 ≠ 0 ∧ a0 + 79 + align < W64)
    (hrfb : (rfbGo asz align (p.hdrs.length + 1) p.hdrs p.free_list 0 p.free_list).map
        (fun x => x.1) = some 0)
    (hbump : (bumpBlocks asz align p.blocks).1 = none) :
    (os = none → poolAlloc p asz align os = some (0, p))
    ∧ (∀ a0, os = some a0 →
        ∃ ptr off2 hm2,
          poolAlloc p asz align os
            = some (ptr, { p with
                           hdrs := hm2,
                           blocks := p.blocks
                             ++ [{ base := (add64 (a0 + 32) 15) &&& (not64 15),
                                   size := max p.initial_block_size (add64 asz 32),
                                   offset := off2 }] })
          ∧ ((ptr = 0 ∧ off2 = 0 ∧ hm2 = p.hdrs) ∨ (ptr ≠ 0 ∧ align ∣ ptr))) := by
  have hpow : (0:Nat) < 2 ^ kk := Nat.pos_pow_of_pos kk (by norm_num)
  have hal0 : align ≠ 0 := by omega
  have hland : align &&& (align - 1) = 0 := by rw [halign]; exact pow2_land_pred kk
  have hguard : ¬ (asz = 0 ∨ align &&& (align - 1) ≠ 0) := by
    push_neg
    exact ⟨hasz, hland⟩
  obtain ⟨r0, fl2, h2, hrfbeq⟩ :
      ∃ r0 fl2 h2, rfbGo asz align (p.hdrs.length + 1) p.hdrs p.free_list 0 p.free_list
        = some (r0, fl2, h2) := by
    cases hx : rfbGo asz align (p.hdrs.length + 1) p.hdrs p.free_list 0 p.free_list with
    | none => rw [hx] at hrfb; exact absurd hrfb (by simp)
    | some t =>
      obtain ⟨r0, fl2, h2⟩ := t
      exact ⟨r0, fl2, h2, rfl⟩
  have hr0 : r0 = 0 := by
    rw [hrfbeq] at hrfb
    simpa using hrfb
  obtain ⟨hfl2, hh2⟩ :=
    rfbGo_zero asz align _ p.hdrs p.free_list 0 p.free_list r0 fl2 h2 hhdrs hrfbeq hr0
  subst hfl2 hh2 hr0
  have hbid := bumpBlocks_none_id asz align kk halign hkk p.blocks hblocks hbump
  constructor
  · intro hnone
    subst hnone
    simp only [poolAlloc, if_neg hguard, hrfbeq, hbid]
    rfl
  · intro a0 hsome
    subst hsome
    obtain ⟨ha0, hosb⟩ := hos a0 rfl
    have hbase : (add64 (a0 + 32) 15) &&& (not64 15) = (a0 + 47) - (a0 + 47) % 16 := by
      have h47 : add64 (a0 + 32) 15 = a0 + 47 := add64_eq_of_lt (by omega)
      rw [h47, not64_fifteen, land_mask_eq _ 4 (by omega) (by omega)]
      norm_num
    have hnbW : (newRegion a0 (max p.initial_block_size (add64 asz 32))).base
        + (newRegion a0 (max p.initial_block_size (add64 asz 32))).offset
        + 32 + align < W64 := by
      show ((add64 (a0 + 32) 15) &&& (not64 15)) + 0 + 32 + align < W64
      rw [hbase]
      omega
    cases hafb : allocFromBlock (newRegion a0 (max p.initial_block_size (add64 asz 32)))
        asz align with
    | none =>
      refine ⟨0, 0, p.hdrs, ?_, Or.inl ⟨rfl, rfl, rfl⟩⟩
      simp only [poolAlloc, if_neg hguard, hrfbeq, hbid, hafb, if_neg ha0]
      rfl
    | some res =>
      obtain ⟨ptr, newOff, ha2, hv⟩ := res
      have hge := allocFromBlock_ge _ asz align kk halign hkk hnbW ptr newOff ha2 hv hafb
      have hptr0 : ptr ≠ 0 := by
        have hb32 : 32 ≤ (newRegion a0 (max p.initial_block_size (add64 asz 32))).base
            + (newRegion a0 (max p.initial_block_size (add64 asz 32))).offset + 32 := by
          omega
        omega
      have hdvd := allocFromBlock_aligned _ asz align kk halign hkk ptr newOff ha2 hv hafb
      refine ⟨ptr, newOff, updH p.hdrs ha2 hv, ?_, Or.inr ⟨hptr0, hdvd⟩⟩
      simp only [poolAlloc, if_neg hguard, hrfbeq, hbid, hafb, if_neg ha0]
      rfl

/-- Witness for the amended C3: a fresh pool asked for 5000 bytes at
alignment 16 with the OS refusing returns 0 and is exactly unchanged. -/
theorem claim_C3_witness :
    poolAlloc poolA 5000 16 none = some (0, poolA)
    ∧ (poolA.free_list = poolA.free_list ∧ poolA.hdrs = poolA.hdrs
       ∧ (poolA.blocks = poolA.blocks
          ∨ ∃ a0, (none : Option Nat) = some a0
             ∧ poolA.blocks = poolA.blocks
                 ++ [newRegion a0 (max poolA.initial_block_size (add64 5000 32))])
       ∧ ((none : Option Nat) = none → poolA = poolA)) :=
  ⟨by decide,
   claim_C3_amended poolA 5000 16 none poolA (by decide) (by decide)
     (by intro a bh h; simp [poolA, lookupH] at h)
     (by intro blk hm; simp [poolA] at hm; subst hm; decide)
     (by intro a0 h; simp at h)
     (by decide)⟩

/-- Witness for the amended C4: a fresh pool asked for 5000 bytes at
alignment 16 with the OS granting a page at 131072 appends exactly one
region of usable size max(4096, 5032) = 5032 and succeeds inside it. -/
theorem claim_C4_witness :
    ((rfbGo 5000 16 (poolA.hdrs.length + 1) poolA.hdrs poolA.free_list 0 poolA.free_list).map
        (fun x => x.1) = some 0)
    ∧ ((bumpBlocks 5000 16 poolA.blocks).1 = none)
    ∧ (∃ ptr off2 hm2,
        poolAlloc poolA 5000 16 (some 131072)
          = some (ptr, { poolA with
                         hdrs := hm2,
                         blocks := poolA.blocks
                           ++ [{ base := (add64 (131072 + 32) 15) &&& (not64 15),
                                 size := max poolA.initial_block_size (add64 5000 32),
                                 offset := off2 }] })
        ∧ ((ptr = 0 ∧ off2 = 0 ∧ hm2 = poolA.hdrs) ∨ (ptr ≠ 0 ∧ 16 ∣ ptr))) :=
  ⟨by decide, by decide,
   (claim_C4_amended poolA 5000 16 4 (some 131072) (by decide) (by norm_num) (by norm_num)
     (by intro a bh h; simp [poolA, lookupH] at h)
     (by intro blk hm; simp [poolA] at hm; subst hm; decide)
     (by
       intro a0 h
       have h2 : (131072:Nat) = a0 := by injection h
       subst h2
       decide)
     (by decide)
     (by decide)).2 131072 rfl⟩

/-- Counterexample to C7 as stated: alignment 0 is not a power of two,
yet 0 and (0-1) equals 0 in size_t arithmetic, so the guard passes; on a
fresh pool the call proceeds, fails the bump everywhere (the wrapped
required size is huge), grows the pool, fails again, and returns 0
having appended a region: a side effect. -/
theorem claim_C7_counterexample :
    (poolAlloc poolA 16 0 (some 131072)).map (fun x => (x.1, x.2.blocks))
    = some (0, [{ base := 65568, size := 4096, offset := 0 },
                { base := 131104, size := 4096, offset := 0 }]) := by decide

/-- C7 amended: a null handle, a zero size, or a nonzero alignment that
is not a power of two each make pool_alloc return 0 with no side effect;
alignment 0, however, passes the guard (see the counterexample). -/
theorem claim_C7_amended :
    (∀ (asz align : Nat) (os : Option Nat), poolAllocH none asz align os = some (0, none))
    ∧ (∀ (p : Pool) (align : Nat) (os : Option Nat), poolAlloc p 0 align os = some (0, p))
    ∧ (∀ (p : Pool) (asz align : Nat) (os : Option Nat), align ≠ 0 →
        (¬ ∃ kk, align = 2 ^ kk) → poolAlloc p asz align os = some (0, p)) := by
  refine ⟨fun _ _ _ => rfl, fun p align os => ?_, fun p asz align os hal hnp => ?_⟩
  · show (if (0:Nat) = 0 ∨ align &&& (align - 1) ≠ 0 then some ((0:Nat), p) else _) = some (0, p)
    rw [if_pos (Or.inl rfl)]
  · have hland : align &&& (align - 1) ≠ 0 := by
      intro h0
      exact hnp (pow2_of_land_pred align (Nat.pos_of_ne_zero hal) h0)
    show (if asz = 0 ∨ align &&& (align - 1) ≠ 0 then some ((0:Nat), p) else _) = some (0, p)
    rw [if_pos (Or.inr hland)]

/-- Witness for the amended C7: null handle, zero size, and the
non-power-of-two alignment 6 all return 0 without touching the pool. -/
theorem claim_C7_witness :
    poolAllocH none 7 16 none = some (0, none)
    ∧ poolAlloc poolA 0 16 none = some (0, poolA)
    ∧ poolAlloc poolA 5 6 none = some (0, poolA) :=
  ⟨claim_C7_amended.1 7 16 none,
   claim_C7_amended.2.1 poolA 16 none,
   claim_C7_amended.2.2 poolA 5 6 none (by decide) (by
     rintro ⟨kk, hkk⟩
     have h3 : kk < 3 := by
       by_contra hc
       push_neg at hc
       have h8 : (8:Nat) ≤ 2 ^ kk := by
         calc (8:Nat) = 2 ^ 3 := by norm_num
         _ ≤ 2 ^ kk := Nat.pow_le_pow_right (by norm_num) hc
       omega
     interval_cases kk <;> norm_num at hkk)⟩

/-- C2 is a code bug: with three physically adjacent 16-byte blocks at
headers 1000, 1048 and 1096, the outer two already free, freeing the
middle one sorts [1000, 1048, 1096], merges 1000 with 1048 and nulls
that array slot, and the next loop iteration dereferences the nulled
slot (header address 0): the modelled run fails where the C program
performs a wild read, so the free never establishes the claimed
fully-coalesced sorted free list. -/
theorem claim_C2_eval :
    poolFree { blocks := [{ base := 1000, size := 4096, offset := 144 }],
               free_list := 1000, initial_block_size := 4096,
               hdrs := [(1000, ⟨16, 0, 1096⟩), (1096, ⟨16, 0, 0⟩), (1048, ⟨16, 0, 0⟩)] } 1080
    = none := by decide

/-- C10: slab_free with the null object pointer and pool_free with user
pointer 0 both return immediately with the allocator state unchanged. -/
theorem claim_C10 :
    (∀ (s : SlabState), slabFree s 0 = s) ∧ (∀ (p : Pool), poolFree p 0 = some p) :=
  ⟨fun _ => rfl, fun _ => rfl⟩
